import Mathlib

/-!
Verification of the documentcloud client core (documents.py) against its
natural-language specification.

The Python source in `src/documentcloud/documents.py` is shallowly embedded
below.  Pure string manipulation (`os.path.splitext`, `_get_title`,
`str.lower`, `str.lstrip`) is translated to executable Lean functions on
`List Char` / `String`; dictionaries are translated to association lists in
insertion order (Python dicts preserve insertion order and `d[k] = v`
updates in place); the remote API is an explicit oracle; runs of
`upload_directory` are a trace (create bodies, PUT attempts) plus an
`Except` outcome mirroring raise-vs-return.
-/

/-- Split a character list at the LAST occurrence of `sep`:
`splitLastOn sep l = some (before, after)` with `l = before ++ sep :: after`,
or `none` when `sep` does not occur.  Used to embed Python's
`str.rsplit(sep, 1)` and `os.path.splitext`. -/
def splitLastOn (sep : Char) : List Char → Option (List Char × List Char)
  | [] => none
  | c :: rest =>
    match splitLastOn sep rest with
    | some (a, b) => some (c :: a, b)
    | none => if c = sep then some ([], rest) else none

/-- The part of a path after the final `/` (the whole path when there is no
`/`): embeds `name.split(os.sep)[-1]` with `os.sep = "/"`. -/
def basenameChars (l : List Char) : List Char :=
  match splitLastOn '/' l with
  | some (_, b) => b
  | none => l

/-- Embeds `os.path.splitext(path)[1]` (CPython `genericpath._splitext`):
the extension including the leading dot, where leading dots of the basename
do not start an extension. -/
def splitextExt (path : String) : String :=
  let base := basenameChars path.data
  let rest := base.dropWhile (fun c => c = '.')
  match splitLastOn '.' rest with
  | some (_, b) => ⟨'.' :: b⟩
  | none => ""

/-- Embeds `DocumentClient._get_title`:
`name.split(os.sep)[-1].rsplit(".", 1)[0]`. -/
def get_title (name : String) : String :=
  let base := basenameChars name.data
  match splitLastOn '.' base with
  | some (a, _) => ⟨a⟩
  | none => ⟨base⟩

/-- Embeds Python `str.lower` (ASCII is all that occurs in extensions). -/
def lowerStr (s : String) : String := ⟨s.data.map Char.toLower⟩

/-- Embeds Python `str.lstrip(".")`. -/
def lstripDots (s : String) : String := ⟨s.data.dropWhile (fun c => c = '.')⟩

/-- Values stored in keyword-argument / JSON-parameter dictionaries.
`one v` stands for the one-element Python list `[v]` built by
`_format_upload_parameters` for the `project` keyword. -/
inductive Value where
  | str : String → Value
  | nat : Nat → Value
  | one : Value → Value
deriving DecidableEq

/-- Association-list dictionary in insertion order. -/
abbrev Dict := List (String × Value)

/-- First binding of `k` (Python dict lookup; keys are unique in a real
dict so the first binding is the binding). -/
def dictLookup : Dict → String → Option Value
  | [], _ => none
  | (k', v) :: rest, k => if k' = k then some v else dictLookup rest k

/-- Python `d[k] = v`: replace in place when present, else append. -/
def dictSet : Dict → String → Value → Dict
  | [], k, v => [(k, v)]
  | (k', v') :: rest, k, v =>
    if k' = k then (k, v) :: rest else (k', v') :: dictSet rest k v

/-- Python `d.pop(k, None)`'s effect on the dict: remove the binding. -/
def dictErase : Dict → String → Dict
  | [], _ => []
  | (k', v) :: rest, k =>
    if k' = k then dictErase rest k else (k', v) :: dictErase rest k

/-- Modelled from the spec (the repository's `toolbox.merge_dicts` is not
under `src/`): combine two dicts with the second's bindings overriding the
first's, as Python `{**a, **b}`. -/
def merge_dicts (a b : Dict) : Dict :=
  b.foldl (fun d kv => dictSet d kv.1 kv.2) a

/-- The fixed allow-list of supported extensions from
`DocumentClient.upload_directory` (transcribed verbatim, duplicates
included). -/
def supported_extensions : List String :=
  [".abw", ".zabw", ".md", ".pm3", ".pm4", ".pm5", ".pm6", ".p65", ".cwk",
   ".agd", ".fhd", ".kth", ".key", ".numbers", ".pages", ".bmp", ".csv",
   ".txt", ".cdr", ".cmx", ".cgm", ".dif", ".dbf", ".xml", ".eps", ".emf",
   ".fb2", ".gnm", ".gnumeric", ".gif", ".hwp", ".plt", ".html", ".htm",
   ".jtd", ".jtt", ".jpg", ".jpeg", ".wk1", ".wks", ".123", ".wk3", ".wk4",
   ".pct", ".mml", ".xls", ".xlw", ".xlt", ".xlsx", ".docx", ".pptx",
   ".ppt", ".pps", ".pot", ".pptx", ".pub", ".rtf", ".xml", ".doc", ".dot",
   ".docx", ".wps", ".wks", ".wdb", ".wri", ".vsd", ".pgm", ".pbm", ".ppm",
   ".odt", ".fodt", ".ods", ".fods", ".odp", ".fodp", ".odg", ".fodg",
   ".odf", ".odb", ".sxw", ".stw", ".sxc", ".stc", ".sxi", ".sti", ".sxd",
   ".std", ".sxm", ".pcx", ".pcd", ".psd", ".pdf"]

/-- The keyword arguments `_format_upload_parameters` copies through, in
source order. -/
def allowed_parameters : List String :=
  ["access", "description", "language", "original_extension",
   "related_article", "publish_at", "published_url", "source", "title",
   "data", "force_ocr", "projects", "delayed_index"]

/-- Embeds `DocumentClient._format_upload_parameters`: start from the
default title derived from `name`, wrap a `project` keyword into a
one-element `projects` list, then copy every allowed keyword present in
`kwargs` (the `secure` keyword only warns and is dropped). -/
def format_upload_parameters (name : String) (kwargs : Dict) : Dict :=
  let params : Dict := [("title", Value.str (get_title name))]
  let params :=
    match dictLookup kwargs "project" with
    | some v => dictSet params "projects" (Value.one v)
    | none => params
  allowed_parameters.foldl
    (fun ps param =>
      match dictLookup kwargs param with
      | some v => dictSet ps param v
      | none => ps)
    params

/-- Modelled from the spec (the repository's `constants.BULK_LIMIT` is not
under `src/`): the fixed batch capacity, "a fixed constant, e.g. 100". -/
def BULK_LIMIT : Nat := 100

/-- Modelled from the spec and the source comment "Grouper will put None's
on the end of the last group" (the repository's `toolbox.grouper` is not
under `src/`): split a list into consecutive groups of exactly `n`
elements, padding the last group with `none`, as `itertools.zip_longest`
grouping does.  `n = 0` or an empty list yields no groups. -/
def grouperF (n : Nat) : Nat → List α → List (List (Option α))
  | _, [] => []
  | 0, _ :: _ => []
  | fuel + 1, x :: xs =>
    (((x :: xs).take n).map some ++
        List.replicate (n - (x :: xs).length) none) ::
      grouperF n fuel ((x :: xs).drop n)

/-- Modelled from the spec and the source comment "Grouper will put None's
on the end of the last group" (the repository's `toolbox.grouper` is not
under `src/`): split a list into consecutive groups of exactly `n`
elements, padding the last group with `none`, as `itertools.zip_longest`
grouping does.  Implemented structurally with fuel `l.length`, which is
always sufficient for `n > 0` (every step consumes at least one element). -/
def grouper (n : Nat) (l : List α) : List (List (Option α)) :=
  grouperF n l.length l

/-- The local environment `upload_directory` runs in: `files` is the list
of paths `_collect_files` discovers under the root (in discovery order),
`sniff` is the composite `magic.from_file` + `mimetypes.guess_extension`
(the extension guessed from the file's BYTE CONTENT, `none` when no type
is recognised), and `size` gives each file's size in bytes (never consulted
by the directory pipeline). -/
structure FileSys where
  files : List String
  sniff : String → Option String
  size : String → Nat

/-- One created-document record from a bulk create response (the fields of
the response JSON the pipeline reads). -/
structure Rec where
  id : Nat
  presigned_url : String
deriving DecidableEq

/-- The remote API's behaviour, keyed by batch sequence number: `create`
answers the bulk `POST documents/` for batch `i` with body `docs`
(`Except.error` = `APIError`/`RequestException` raised), `put` tells
whether the `j`-th direct storage PUT of batch `i` succeeds, and `process`
whether batch `i`'s `POST documents/process/` succeeds. -/
structure Oracle where
  create : Nat → List Dict → Except Unit (List Rec)
  put : Nat → Nat → Bool
  process : Nat → Bool

/-- A record of one attempted direct-to-storage PUT (issued regardless of
whether it then fails): batch number, presigned URL, local file path. -/
structure PutAttempt where
  batch : Nat
  url : String
  path : String
deriving DecidableEq

/-- Observable outcome of a run of `upload_directory`: the bodies of the
bulk create-calls actually issued, the storage PUTs actually attempted,
and the outcome (`Except.error` = the call raised, so the caller receives
no list at all; `Except.ok l` = the returned list of created records). -/
structure RunResult where
  creates : List (List Dict)
  puts : List PutAttempt
  result : Except Unit (List Rec)

/-- Embeds `DocumentClient._get_valid_extension`: sniff the MIME type from
the file's content, map it to an extension, and return it only when its
lowercasing is in the allow-list (empty string otherwise; also when the
guess is `None` or empty, which Python treats as falsy). -/
def get_valid_extension (fs : FileSys) (filepath : String) : String :=
  match fs.sniff filepath with
  | none => ""
  | some ext =>
    if ext ≠ "" ∧ lowerStr ext ∈ supported_extensions then ext else ""

/-- The per-item create body built in `upload_directory`:
`merge_dicts(params, {"title": ..., "original_extension": ...})`. -/
def itemBody (fs : FileSys) (params : Dict) (p : String) : Dict :=
  merge_dicts params
    [("title", Value.str (get_title p)),
     ("original_extension", Value.str (lstripDots (get_valid_extension fs p)))]

/-- Embeds the per-item storage-upload loop of `upload_directory`: each
pair (presigned URL, file path) is PUT in order; a failed PUT aborts the
whole run when `handle` is false ( `raise`), otherwise only that item is
skipped and its siblings continue.  Returns the attempts issued and
whether the loop completed without raising. -/
def doPuts (o : Oracle) (handle : Bool) (i : Nat) :
    Nat → List (String × String) → List PutAttempt × Bool
  | _, [] => ([], true)
  | j, (url, p) :: rest =>
    if o.put i j || handle then
      let r := doPuts o handle i (j + 1) rest
      (⟨i, url, p⟩ :: r.1, r.2)
    else ([⟨i, url, p⟩], false)

/-- Embeds the batch loop of `upload_directory` (one iteration per group
from `grouper`): strip the `None` padding, issue the bulk create, extend
the running `obj_list` with the response, PUT each file to its presigned
URL, then trigger bulk processing — each failure either aborts the run
(`handle = false`) or skips per the source's `continue` statements. -/
def runBatches (fs : FileSys) (o : Oracle) (handle : Bool) (params : Dict) :
    Nat → List (List (Option String)) → List Rec → RunResult
  | _, [], acc => ⟨[], [], Except.ok acc⟩
  | i, g :: gs, acc =>
    let file_paths := g.filterMap id
    let documents := file_paths.map (itemBody fs params)
    match o.create i documents with
    | Except.error _ =>
      if handle then
        let rest := runBatches fs o handle params (i + 1) gs acc
        ⟨documents :: rest.creates, rest.puts, rest.result⟩
      else ⟨[documents], [], Except.error ()⟩
    | Except.ok create_json =>
      let acc := acc ++ create_json
      let presigned_urls := create_json.map (fun j => j.presigned_url)
      let pr := doPuts o handle i 0 (presigned_urls.zip file_paths)
      if pr.2 then
        if o.process i || handle then
          let rest := runBatches fs o handle params (i + 1) gs acc
          ⟨documents :: rest.creates, pr.1 ++ rest.puts, rest.result⟩
        else ⟨[documents], pr.1, Except.error ()⟩
      else ⟨[documents], pr.1, Except.error ()⟩

/-- The files surviving the filter at the start of `upload_directory`:
`os.path.splitext(file)[1].lower() in supported_extensions` — the filter
looks at the FILENAME's extension, not at the sniffed content type. -/
def path_list (fs : FileSys) : List String :=
  fs.files.filter (fun f => lowerStr (splitextExt f) ∈ supported_extensions)

/-- The shared upload parameters computed once per run:
`self._format_upload_parameters("", **kwargs)` after `kwargs.pop("title")`. -/
def sharedParams (kwargs : Dict) : Dict :=
  format_upload_parameters "" (dictErase kwargs "title")

/-- Embeds `DocumentClient.upload_directory`: pop any caller `title`,
filter the discovered files by filename extension, group into batches of
`BULK_LIMIT`, and run the batch loop. -/
def upload_directory (fs : FileSys) (o : Oracle) (handle_errors : Bool)
    (kwargs : Dict) : RunResult :=
  runBatches fs o handle_errors (sharedParams kwargs) 0
    (grouper BULK_LIMIT (path_list fs)) []

/-- The create body of batch `i` of a run (statically determined: bodies
do not depend on the oracle). -/
def batchBodies (fs : FileSys) (params : Dict)
    (gs : List (List (Option String))) : List (List Dict) :=
  gs.map (fun g => (g.filterMap id).map (itemBody fs params))

/-- The records accumulated under the resilient policy: each batch whose
create succeeds contributes its full response, a failed create contributes
nothing. -/
def expRecs (fs : FileSys) (create : Nat → List Dict → Except Unit (List Rec))
    (params : Dict) : Nat → List (List (Option String)) → List Rec
  | _, [] => []
  | i, g :: gs =>
    (match create i ((g.filterMap id).map (itemBody fs params)) with
     | Except.ok r => r
     | Except.error _ => []) ++ expRecs fs create params (i + 1) gs

/-- The PUT attempts under the resilient policy: every (url, path) pair of
every batch whose create succeeded, in order — no item is skipped by a
sibling's failure. -/
def expPuts (fs : FileSys) (o : Oracle) (params : Dict) :
    Nat → List (List (Option String)) → List PutAttempt
  | _, [] => []
  | i, g :: gs =>
    (match o.create i ((g.filterMap id).map (itemBody fs params)) with
     | Except.ok cj =>
       ((cj.map (fun j => j.presigned_url)).zip (g.filterMap id)).map
         (fun x => ⟨i, x.1, x.2⟩)
     | Except.error _ => []) ++ expPuts fs o params (i + 1) gs

/-- An oracle on which every remote call succeeds. -/
def okOracle : Oracle where
  create := fun i docs =>
    Except.ok (docs.map (fun _ => ⟨i, "https://storage.example/put"⟩))
  put := fun _ _ => true
  process := fun _ => true

/-- `isErr e = true` iff the call raised. -/
def isErr : Except Unit (List Rec) → Bool
  | Except.error _ => true
  | Except.ok _ => false

/-- The create body submitted for one group. -/
def groupBody (fs : FileSys) (params : Dict) (g : List (Option String)) :
    List Dict :=
  (g.filterMap id).map (itemBody fs params)

/-- The batches of a run of `upload_directory`. -/
def batches (fs : FileSys) : List (List (Option String)) :=
  grouper BULK_LIMIT (path_list fs)

/-- An oracle on which every remote call succeeds, abstractly. -/
def OracleOk (o : Oracle) : Prop :=
  (∀ i d, ∃ r, o.create i d = Except.ok r) ∧
    (∀ i j, o.put i j = true) ∧ (∀ i, o.process i = true)

/-- A directory holding one file whose FILENAME says `.pdf` but whose BYTE
CONTENT yields no recognisable MIME type (the sniffer returns nothing). -/
def fsPdfNoSniff : FileSys :=
  ⟨["docs/report.pdf"], fun _ => none, fun _ => 0⟩

/-- A directory holding one sniffable pdf file. -/
def fsOne : FileSys := ⟨["w/a.pdf"], fun _ => some ".pdf", fun _ => 3⟩

/-- An oracle whose every bulk create raises. -/
def failCreateOracle : Oracle :=
  ⟨fun _ _ => Except.error (), fun _ _ => true, fun _ => true⟩

/-- 101 supported files, so that `N > BULK_LIMIT`. -/
def fs101 : FileSys :=
  ⟨List.replicate 101 "b/f.abw", fun _ => none, fun _ => 0⟩

/-- An oracle that creates records but fails every PUT and every process
trigger. -/
def sadOracle : Oracle :=
  ⟨fun _ _ => Except.ok [⟨7, "u"⟩], fun _ _ => false, fun _ => false⟩

/-- A network operation issued by the single-file upload flow. -/
inductive NetOp where
  | createDoc : Dict → NetOp
  | putFile : String → NetOp
  | processDoc : Nat → NetOp
deriving DecidableEq

/-- The response of the single `POST documents/` create call: the fields
`_upload_file` reads (`presigned_url` and `id`). -/
structure SingleOracle where
  presigned_url : String
  docId : Nat

/-- Embeds `DocumentClient.upload` on the local-file path followed by
`_upload_file`: the size is checked BEFORE any network call (Python
`if size >= 501 * 1024 * 1024: raise ValueError(...)`); below the cap the
flow issues the create POST (after popping `force_ocr` from kwargs), the
storage PUT, and the process POST.  First component: the network calls
issued in order; second: raise (`error`) or the created document. -/
def upload (so : SingleOracle) (name : String) (size : Nat)
    (kwargs : Dict) : List NetOp × Except Unit Rec :=
  if 501 * 1024 * 1024 ≤ size then ([], Except.error ())
  else
    let params := format_upload_parameters name (dictErase kwargs "force_ocr")
    ([NetOp.createDoc params, NetOp.putFile so.presigned_url,
      NetOp.processDoc so.docId],
     Except.ok ⟨so.docId, so.presigned_url⟩)

/-- The identity fields of a document record that asset accessors read. -/
structure Doc where
  id : Nat
  slug : String
  asset_url : String
  page_count : Nat
  title : String
deriving DecidableEq

/-- Embeds Python `str.startswith` on strings. -/
def startsWithStr (pre s : String) : Bool := pre.data.isPrefixOf s.data

/-- Embeds Python `str.endswith` on strings. -/
def endsWithStr (suf s : String) : Bool :=
  suf.data.reverse.isPrefixOf s.data.reverse

/-- Embeds `Document.get_full_text_url`:
`"{}documents/{}/{}.txt".format(asset_url, id, slug)`. -/
def get_full_text_url (d : Doc) : String :=
  d.asset_url ++ ("documents/" ++ (toString d.id ++ ("/" ++
    (d.slug ++ ".txt"))))

/-- Embeds `Document.get_page_text_url` (default `page=1`). -/
def get_page_text_url (d : Doc) (page : Nat := 1) : String :=
  d.asset_url ++ ("documents/" ++ (toString d.id ++ ("/pages/" ++
    (d.slug ++ ("-p" ++ (toString page ++ ".txt"))))))

/-- Embeds `Document.get_page_position_json_url` (default `page=1`). -/
def get_page_position_json_url (d : Doc) (page : Nat := 1) : String :=
  d.asset_url ++ ("documents/" ++ (toString d.id ++ ("/pages/" ++
    (d.slug ++ ("-p" ++ (toString page ++ ".position.json"))))))

/-- Embeds `Document.get_json_text_url`. -/
def get_json_text_url (d : Doc) : String :=
  d.asset_url ++ ("documents/" ++ (toString d.id ++ ("/" ++
    (d.slug ++ ".txt.json"))))

/-- Embeds `Document.get_pdf_url`. -/
def get_pdf_url (d : Doc) : String :=
  d.asset_url ++ ("documents/" ++ (toString d.id ++ ("/" ++
    (d.slug ++ ".pdf"))))

/-- Embeds `Document.get_image_url` (defaults `page=1`, `size="normal"`). -/
def get_image_url (d : Doc) (page : Nat := 1) (size : String := "normal") :
    String :=
  d.asset_url ++ ("documents/" ++ (toString d.id ++ ("/pages/" ++
    (d.slug ++ ("-p" ++ (toString page ++ ("-" ++ (size ++ ".gif"))))))))

/-- Embeds `Document.get_image_url_list`:
`[get_image_url(page=i, size=size) for i in range(1, page_count + 1)]`. -/
def get_image_url_list (d : Doc) (size : String := "normal") : List String :=
  (List.range d.page_count).map (fun i => get_image_url d (i + 1) size)

/-- First value bound to `k` in a template environment ("" if absent). -/
def lookupD (env : List (String × String)) (k : String) : String :=
  match env with
  | [] => ""
  | (k', v) :: rest => if k' = k then v else lookupD rest k

/-- Renderer for the spec's `{name}`-style path templates (§4.2), written
independently of the URL builders above: copies literal characters and
substitutes each `{name}` hole from the environment.  The state is `none`
while copying literals and `some acc` while reading a hole's name. -/
def renderAux (env : List (String × String)) :
    Option (List Char) → List Char → String
  | none, [] => ""
  | none, '{' :: rest => renderAux env (some []) rest
  | none, c :: rest => ⟨[c]⟩ ++ renderAux env none rest
  | some _, [] => ""
  | some acc, '}' :: rest => lookupD env ⟨acc.reverse⟩ ++ renderAux env none rest
  | some acc, c :: rest => renderAux env (some (c :: acc)) rest

/-- Render a spec path template against an environment. -/
def renderTemplate (tpl : String) (env : List (String × String)) : String :=
  renderAux env none tpl.data

/-- Decode formats of `Document._get_url`. -/
inductive Fmt where
  | text
  | json
deriving DecidableEq

/-- Decoded content returned by `Document._get_url`: raw bytes, UTF-8
text, or parsed JSON of the response body (bodies are modelled as
strings). -/
inductive Content where
  | bytes : String → Content
  | text : String → Content
  | json : String → Content
deriving DecidableEq

/-- `_get_url`'s decode step on a fetched body. -/
def decodeContent (fmt : Option Fmt) (body : String) : Content :=
  match fmt with
  | some Fmt.text => Content.text body
  | some Fmt.json => Content.json body
  | none => Content.bytes body

/-- The value an attribute access evaluates to (methods are applied with
their default arguments, matching how the accessor convention is used). -/
inductive AttrValue where
  | url : String → AttrValue
  | urlList : List String → AttrValue
  | content : Content → AttrValue
  | natVal : Nat → AttrValue
  | strVal : String → AttrValue
deriving DecidableEq

/-- The instance attributes (from the document's JSON) relevant here; these
are found by normal Python attribute lookup before `__getattr__` runs. -/
def instanceAttr (d : Doc) (attr : String) : Option AttrValue :=
  if attr = "id" then some (AttrValue.natVal d.id)
  else if attr = "slug" then some (AttrValue.strVal d.slug)
  else if attr = "asset_url" then some (AttrValue.strVal d.asset_url)
  else if attr = "page_count" then some (AttrValue.natVal d.page_count)
  else if attr = "title" then some (AttrValue.strVal d.title)
  else none

/-- The resource-URL methods defined directly on the `Document` class,
evaluated at their default arguments; found by normal lookup before
`__getattr__` runs. -/
def callDirect (d : Doc) (attr : String) : Option AttrValue :=
  if attr = "get_full_text_url" then
    some (AttrValue.url (get_full_text_url d))
  else if attr = "get_page_text_url" then
    some (AttrValue.url (get_page_text_url d 1))
  else if attr = "get_page_position_json_url" then
    some (AttrValue.url (get_page_position_json_url d 1))
  else if attr = "get_json_text_url" then
    some (AttrValue.url (get_json_text_url d))
  else if attr = "get_pdf_url" then
    some (AttrValue.url (get_pdf_url d))
  else if attr = "get_image_url" then
    some (AttrValue.url (get_image_url d 1 "normal"))
  else if attr = "get_image_url_list" then
    some (AttrValue.urlList (get_image_url_list d "normal"))
  else none

/-- The sizes accepted by the image accessor pattern. -/
def imageSizes : List String := ["thumbnail", "small", "normal", "large"]

/-- Embeds the regex
`^get_(?P<size>thumbnail|small|normal|large)_image_url(?P<list>_list)?$`:
returns the size and whether the `_list` group matched. -/
def matchImage (attr : String) : Option (String × Bool) :=
  (imageSizes.filterMap (fun size =>
    if attr = "get_" ++ size ++ "_image_url" then some (size, false)
    else if attr = "get_" ++ size ++ "_image_url_list" then some (size, true)
    else none)).head?

/-- Embeds attribute resolution on `Document`: normal lookup (instance
fields, then the class's `get_*` methods), falling back to
`Document.__getattr__` with its precedence — (1) without a `get_` marker,
delegate to the resolvable `get_`-name and call it; (2) without a `_url`
suffix, fetch-and-decode the URL produced by the resolvable `_url`-name
(format from the ORIGINAL name's `_text`/`_json` suffix); (3) the generic
image pattern; otherwise `AttributeError` (`none`).  Python's `hasattr`
swallows the nested `AttributeError`, embedded by `Option.isSome` of the
recursive resolution; `fuel` bounds the recursion depth (resolution never
nests more than three names, so any fuel ≥ 4 is exact). -/
def getAttr (web : String → String) (d : Doc) :
    Nat → String → Option AttrValue
  | 0, _ => none
  | fuel + 1, attr =>
    match instanceAttr d attr with
    | some v => some v
    | none =>
      match callDirect d attr with
      | some v => some v
      | none =>
        let get := startsWithStr "get_" attr
        let url := endsWithStr "_url" attr
        let text := endsWithStr "_text" attr
        let json := endsWithStr "_json" attr || endsWithStr "_json_text" attr
        let fmt : Option Fmt :=
          if json then some Fmt.json
          else if text then some Fmt.text else none
        if !get && (getAttr web d fuel ("get_" ++ attr)).isSome then
          getAttr web d fuel ("get_" ++ attr)
        else if !url && (getAttr web d fuel (attr ++ "_url")).isSome then
          match getAttr web d fuel (attr ++ "_url") with
          | some (AttrValue.url u) =>
            some (AttrValue.content (decodeContent fmt (web u)))
          | _ => none
        else
          match matchImage attr with
          | some (size, true) =>
            some (AttrValue.urlList (get_image_url_list d size))
          | some (size, false) =>
            some (AttrValue.url (get_image_url d 1 size))
          | none => none

/-- Attribute resolution at ample fuel (depth is at most 3). -/
def resolveAttr (web : String → String) (d : Doc) (attr : String) :
    Option AttrValue :=
  getAttr web d 5 attr

/-- A concrete two-page document. -/
def docEx : Doc := ⟨11, "slug-ex", "https://assets.example/", 2, "T"⟩

/-- One mention derived from a search highlight: `Mention.__init__` strips
a leading `page_no_` from the page label. -/
structure Mention where
  page : String
  text : String
deriving DecidableEq

/-- Embeds `Mention.__init__`. -/
def mkMention (page text : String) : Mention :=
  if startsWithStr "page_no_" page then ⟨⟨page.data.drop 8⟩, text⟩
  else ⟨page, text⟩

/-- Embeds the `Document.mentions` property.  `none` stands for a document
with no usable highlights (the `highlights` attribute absent — in which
case `hasattr` is false — or bound to `None`); `some hs` is the highlight
mapping in its iteration order. -/
def mentions (highlights : Option (List (String × List String))) :
    List Mention :=
  match highlights with
  | none => []
  | some hs => (hs.map (fun pt => pt.2.map (mkMention pt.1))).flatten

example : dictSet [("a", .nat 1), ("b", .nat 2)] "a" (.nat 3) =
    [("a", .nat 3), ("b", .nat 2)] := by decide

example : dictErase [("a", .nat 1), ("b", .nat 2)] "a" = [("b", .nat 2)] := by decide

example : splitextExt "dir/a.tar.gz" = ".gz" := by decide

example : splitextExt "dir/.bashrc" = "" := by decide

example : splitextExt "dir.d/noext" = "" := by decide

example : get_title "dir/a.tar.gz" = "a.tar" := by decide

example : get_title "dir/noext" = "noext" := by decide

example : get_title "dir/.bashrc" = "" := by decide

example : get_title "" = "" := by decide

theorem grouperF_nil (n fuel : Nat) : grouperF n fuel ([] : List α) = [] := by
  cases fuel <;> rfl

theorem grouperF_congr (n : Nat) (hn : n ≠ 0) :
    ∀ fuel₁ fuel₂ (l : List α), l.length ≤ fuel₁ → l.length ≤ fuel₂ →
      grouperF n fuel₁ l = grouperF n fuel₂ l := by
  intro fuel₁
  induction fuel₁ with
  | zero =>
    intro fuel₂ l h1 _
    have : l = [] := List.eq_nil_of_length_eq_zero (Nat.le_zero.mp h1)
    subst this
    rw [grouperF_nil, grouperF_nil]
  | succ f ih =>
    intro fuel₂ l h1 h2
    cases l with
    | nil => rw [grouperF_nil, grouperF_nil]
    | cons x xs =>
      cases fuel₂ with
      | zero => simp at h2
      | succ f₂ =>
        show _ :: _ = _ :: _
        congr 1
        have hpos := Nat.pos_of_ne_zero hn
        simp only [List.length_cons] at h1 h2
        apply ih
        · simp only [List.length_drop, List.length_cons]
          omega
        · simp only [List.length_drop, List.length_cons]
          omega

theorem grouper_nil (n : Nat) : grouper n ([] : List α) = [] := rfl

/-- One unfolding step of `grouper` on a nonempty list. -/
theorem grouper_cons (n : Nat) (hn : n ≠ 0) (l : List α) (hl : l ≠ []) :
    grouper n l =
      ((l.take n).map some ++ List.replicate (n - l.length) none) ::
        grouper n (l.drop n) := by
  cases l with
  | nil => exact absurd rfl hl
  | cons x xs =>
    show grouperF n (xs.length + 1) (x :: xs) = _
    show _ :: _ = _ :: _
    congr 1
    have hpos := Nat.pos_of_ne_zero hn
    apply grouperF_congr n hn
    · simp only [List.length_drop, List.length_cons]
      omega
    · simp [List.length_drop]

example : grouper 2 [1, 2, 3] = [[some 1, some 2], [some 3, none]] := by decide

theorem filterMap_id_pad (xs : List α) (k : Nat) :
    ((xs.map some ++ List.replicate k none).filterMap id) = xs := by
  rw [List.filterMap_append, List.filterMap_map]
  have h1 : List.filterMap (id ∘ some) xs = xs := List.filterMap_some xs
  have h2 : (List.replicate k (none : Option α)).filterMap id = [] :=
    List.filterMap_replicate_of_none rfl
  rw [h1, h2, List.append_nil]

theorem grouper_eq_nil_iff (n : Nat) (hn : n ≠ 0) (l : List α) :
    grouper n l = [] ↔ l = [] := by
  constructor
  · intro h
    by_contra hne
    rw [grouper_cons n hn l hne] at h
    exact List.cons_ne_nil _ _ h
  · intro h
    subst h
    exact grouper_nil n

/-- Removing the `none` padding from every group recovers exactly the input
in order: concatenation of the de-padded groups is the original list. -/
theorem grouper_flatten (n : Nat) (hn : n ≠ 0) (l : List α) :
    ((grouper n l).map (fun g => g.filterMap id)).flatten = l := by
  by_cases hl : l = []
  · subst hl
    rw [grouper_nil]
    rfl
  · rw [grouper_cons n hn l hl]
    rw [List.map_cons, List.flatten_cons, filterMap_id_pad,
      grouper_flatten n hn (l.drop n), List.take_append_drop]
termination_by l.length
decreasing_by
  simp only [List.length_drop]
  have h1 : 0 < n := Nat.pos_of_ne_zero hn
  have h2 : 0 < l.length := List.length_pos.mpr hl
  omega

/-- The number of groups is the ceiling of `length / n`. -/
theorem grouper_length (n : Nat) (hn : n ≠ 0) (l : List α) :
    (grouper n l).length = (l.length + n - 1) / n := by
  have hpos : 0 < n := Nat.pos_of_ne_zero hn
  by_cases hl : l = []
  · subst hl
    rw [grouper_nil]
    simp only [List.length_nil, Nat.zero_add]
    exact (Nat.div_eq_of_lt (by omega)).symm
  · rw [grouper_cons n hn l hl]
    rw [List.length_cons, grouper_length n hn (l.drop n)]
    have hm : 0 < l.length := List.length_pos.mpr hl
    simp only [List.length_drop]
    rcases le_or_lt l.length n with hle | hgt
    · have e1 : l.length - n = 0 := by omega
      rw [e1]
      have e2 : (0 : Nat) + n - 1 = n - 1 := by omega
      rw [e2, Nat.div_eq_of_lt (by omega)]
      have e3 : l.length + n - 1 = (l.length - 1) + n := by omega
      rw [e3, Nat.add_div_right _ hpos, Nat.div_eq_of_lt (by omega)]
    · have e1 : l.length - n + n - 1 = (l.length - n - 1) + n := by omega
      have e2 : l.length + n - 1 = ((l.length - n - 1) + n) + n := by omega
      rw [e1, e2, Nat.add_div_right _ hpos, Nat.add_div_right _ hpos,
        Nat.add_div_right _ hpos]
termination_by l.length
decreasing_by
  simp only [List.length_drop]
  have h1 : 0 < n := Nat.pos_of_ne_zero hn
  have h2 : 0 < l.length := List.length_pos.mpr hl
  omega

/-- Every group except possibly the last carries exactly `n` real items. -/
theorem grouper_dropLast (n : Nat) (hn : n ≠ 0) (l : List α) :
    ∀ g ∈ (grouper n l).dropLast, (g.filterMap id).length = n := by
  by_cases hl : l = []
  · subst hl
    rw [grouper_nil]
    intro g hg
    simp at hg
  · rw [grouper_cons n hn l hl]
    by_cases hrest : grouper n (l.drop n) = []
    · rw [hrest]
      intro g hg
      simp at hg
    · intro g hg
      rw [List.dropLast_cons_of_ne_nil hrest] at hg
      rcases List.mem_cons.mp hg with h | h
      · subst h
        rw [filterMap_id_pad, List.length_take]
        have hd : l.drop n ≠ [] := by
          intro hc
          exact hrest (by rw [hc]; exact grouper_nil n)
        have : n < l.length := by
          have := List.length_pos.mpr hd
          simp only [List.length_drop] at this
          omega
        omega
      · exact grouper_dropLast n hn (l.drop n) g h
termination_by l.length
decreasing_by
  simp only [List.length_drop]
  have h1 : 0 < n := Nat.pos_of_ne_zero hn
  have h2 : 0 < l.length := List.length_pos.mpr hl
  omega

/-- Every group carries at most `n` real items. -/
theorem grouper_le (n : Nat) (hn : n ≠ 0) (l : List α) :
    ∀ g ∈ grouper n l, (g.filterMap id).length ≤ n := by
  by_cases hl : l = []
  · subst hl
    rw [grouper_nil]
    intro g hg
    simp at hg
  · rw [grouper_cons n hn l hl]
    intro g hg
    rcases List.mem_cons.mp hg with h | h
    · subst h
      rw [filterMap_id_pad, List.length_take]
      omega
    · exact grouper_le n hn (l.drop n) g h
termination_by l.length
decreasing_by
  simp only [List.length_drop]
  have h1 : 0 < n := Nat.pos_of_ne_zero hn
  have h2 : 0 < l.length := List.length_pos.mpr hl
  omega

theorem doPuts_resilient (o : Oracle) (i : Nat) :
    ∀ j pairs, doPuts o true i j pairs =
      (pairs.map (fun x => (⟨i, x.1, x.2⟩ : PutAttempt)), true) := by
  intro j pairs
  induction pairs generalizing j with
  | nil => rfl
  | cons hd tl ih =>
    obtain ⟨url, p⟩ := hd
    simp only [doPuts, Bool.or_true, if_true, ih (j + 1), List.map_cons]

theorem doPuts_allOk (o : Oracle) (hput : ∀ i j, o.put i j = true)
    (handle : Bool) (i : Nat) :
    ∀ j pairs, doPuts o handle i j pairs =
      (pairs.map (fun x => (⟨i, x.1, x.2⟩ : PutAttempt)), true) := by
  intro j pairs
  induction pairs generalizing j with
  | nil => rfl
  | cons hd tl ih =>
    obtain ⟨url, p⟩ := hd
    simp only [doPuts, hput i j, Bool.true_or, if_true, ih (j + 1),
      List.map_cons]

/-- Complete characterisation of the batch loop under `handle_errors=true`:
every batch's create is attempted, every (url, path) pair of every
successfully created batch is PUT, and the run returns the accumulator
plus every successfully created record; no failure aborts the run. -/
theorem runBatches_resilient (fs : FileSys) (o : Oracle) (params : Dict) :
    ∀ gs i acc, runBatches fs o true params i gs acc =
      ⟨batchBodies fs params gs, expPuts fs o params i gs,
        Except.ok (acc ++ expRecs fs o.create params i gs)⟩ := by
  intro gs
  induction gs with
  | nil =>
    intro i acc
    simp [runBatches, batchBodies, expPuts, expRecs]
  | cons g gs ih =>
    intro i acc
    simp only [runBatches]
    cases hc : o.create i ((g.filterMap id).map (itemBody fs params)) with
    | error e =>
      simp only [if_true, ih (i + 1) acc]
      simp [batchBodies, expPuts, expRecs, hc]
    | ok cj =>
      simp only [doPuts_resilient, Bool.or_true, if_true, ih (i + 1)]
      simp [batchBodies, expPuts, expRecs, hc, List.append_assoc]

/-- Under `handle_errors=false`, if the oracle would fail the create of any
batch within range, the run raises: the caller gets no list at all. -/
theorem runBatches_failfast (fs : FileSys) (o : Oracle) (params : Dict) :
    ∀ gs i acc k (hk : k < gs.length),
      isErr (o.create (i + k) (groupBody fs params (gs.get ⟨k, hk⟩))) = true →
      (runBatches fs o false params i gs acc).result = Except.error () := by
  intro gs
  induction gs with
  | nil =>
    intro i acc k hk
    simp at hk
  | cons g gs ih =>
    intro i acc k hk hfail
    simp only [runBatches]
    cases hc : o.create i ((g.filterMap id).map (itemBody fs params)) with
    | error e => simp
    | ok cj =>
      cases k with
      | zero =>
        simp only [Nat.add_zero, List.get] at hfail
        rw [show groupBody fs params g =
            (g.filterMap id).map (itemBody fs params) from rfl] at hfail
        rw [hc] at hfail
        simp [isErr] at hfail
      | succ k' =>
        cases hpr : (doPuts o false i 0
            ((cj.map (fun j => j.presigned_url)).zip (g.filterMap id))).2 with
        | false => simp [hpr]
        | true =>
          cases hproc : o.process i with
          | false => simp [hpr, hproc]
          | true =>
            simp only [hpr, hproc, Bool.true_or, if_true]
            have hk' : k' < gs.length := by
              simpa using hk
            have := ih (i + 1) (acc ++ cj) k' hk'
            rw [show i + 1 + k' = i + (k' + 1) from by omega] at this
            exact this (by simpa using hfail)

/-- On an all-success oracle the fail-fast and resilient runs coincide. -/
theorem runBatches_allOk (fs : FileSys) (o : Oracle) (hok : OracleOk o)
    (params : Dict) (handle : Bool) :
    ∀ gs i acc, runBatches fs o handle params i gs acc =
      runBatches fs o true params i gs acc := by
  intro gs
  induction gs with
  | nil => intro i acc; rfl
  | cons g gs ih =>
    intro i acc
    simp only [runBatches]
    obtain ⟨r, hr⟩ := hok.1 i ((g.filterMap id).map (itemBody fs params))
    rw [hr]
    simp only [doPuts_allOk o hok.2.1, doPuts_resilient, hok.2.2 i,
      Bool.true_or, Bool.or_true, if_true, ih (i + 1)]

/-- Membership of a successful batch's records in the accumulated output. -/
theorem expRecs_mem (fs : FileSys)
    (create : Nat → List Dict → Except Unit (List Rec)) (params : Dict) :
    ∀ gs i k (hk : k < gs.length) recs,
      create (i + k) (groupBody fs params (gs.get ⟨k, hk⟩)) =
          Except.ok recs →
      ∀ r ∈ recs, r ∈ expRecs fs create params i gs := by
  intro gs
  induction gs with
  | nil =>
    intro i k hk
    simp at hk
  | cons g gs ih =>
    intro i k hk recs hcr r hr
    cases k with
    | zero =>
      simp only [Nat.add_zero, List.get] at hcr
      simp only [expRecs]
      rw [show groupBody fs params g =
          (g.filterMap id).map (itemBody fs params) from rfl] at hcr
      rw [hcr]
      exact List.mem_append_left _ hr
    | succ k' =>
      simp only [expRecs]
      apply List.mem_append_right
      have hk' : k' < gs.length := by simpa using hk
      have hcr' : create (i + 1 + k')
          (groupBody fs params (gs.get ⟨k', hk'⟩)) = Except.ok recs := by
        rw [show i + 1 + k' = i + (k' + 1) from by omega]
        simpa using hcr
      exact ih (i + 1) k' hk' recs hcr' r hr

theorem dictErase_idem (d : Dict) (k : String) :
    dictErase (dictErase d k) k = dictErase d k := by
  induction d with
  | nil => rfl
  | cons kv rest ih =>
    obtain ⟨k', v⟩ := kv
    by_cases h : k' = k
    · simp [dictErase, h, ih]
    · simp [dictErase, h, ih]

theorem dictLookup_dictSet (d : Dict) (k : String) (v : Value) :
    dictLookup (dictSet d k v) k = some v := by
  induction d with
  | nil => simp [dictSet, dictLookup]
  | cons kv rest ih =>
    obtain ⟨k', v'⟩ := kv
    by_cases h : k' = k
    · simp [dictSet, dictLookup, h]
    · simp [dictSet, dictLookup, h, ih]

theorem dictLookup_dictSet_ne (d : Dict) (k k' : String) (v : Value)
    (h : k' ≠ k) : dictLookup (dictSet d k' v) k = dictLookup d k := by
  induction d with
  | nil => simp [dictSet, dictLookup, h]
  | cons kv rest ih =>
    obtain ⟨k'', v'⟩ := kv
    by_cases h2 : k'' = k'
    · subst h2
      simp [dictSet, dictLookup, h]
    · simp [dictSet, dictLookup, h2, ih]

theorem splitLastOn_eq_none (sep : Char) (l : List Char) (h : sep ∉ l) :
    splitLastOn sep l = none := by
  induction l with
  | nil => rfl
  | cons c rest ih =>
    have hc : c ≠ sep := fun hc => h (hc ▸ List.mem_cons_self c rest)
    have hrest : sep ∉ rest := fun hr => h (List.mem_cons_of_mem c hr)
    simp [splitLastOn, ih hrest, hc]

theorem splitLastOn_append (sep : Char) (a b : List Char) (hb : sep ∉ b) :
    splitLastOn sep (a ++ sep :: b) = some (a, b) := by
  induction a with
  | nil => simp [splitLastOn, splitLastOn_eq_none sep b hb]
  | cons c rest ih => simp [splitLastOn, ih]

/-- The concatenation of all create bodies of a resilient run lists exactly
the filename-filtered files, in discovery order, one body entry per file. -/
theorem upload_directory_creates_flatten (fs : FileSys) (o : Oracle)
    (kwargs : Dict) :
    ((upload_directory fs o true kwargs).creates).flatten =
      (path_list fs).map (itemBody fs (sharedParams kwargs)) := by
  rw [upload_directory, runBatches_resilient]
  show (batchBodies fs (sharedParams kwargs)
      (grouper BULK_LIMIT (path_list fs))).flatten = _
  rw [batchBodies]
  have h1 : (grouper BULK_LIMIT (path_list fs)).map
        (fun g => (g.filterMap id).map (itemBody fs (sharedParams kwargs))) =
      ((grouper BULK_LIMIT (path_list fs)).map
        (fun g => g.filterMap id)).map
        (List.map (itemBody fs (sharedParams kwargs))) := by
    rw [List.map_map]
    rfl
  rw [h1, ← List.map_flatten,
    grouper_flatten BULK_LIMIT (by decide) (path_list fs)]

/-- Claim C1, counterexample.  The claim says a file is included in a
create-call if and only if its CONTENT-sniffed canonical extension is in
the allow-list.  For `docs/report.pdf` whose content sniffs to nothing,
the content-derived extension is empty (not in the allow-list), yet the
file IS included in a create-call (with empty `original_extension`):
`upload_directory` filters by filename extension, not by content. -/
theorem claim_C1_counterexample :
    get_valid_extension fsPdfNoSniff "docs/report.pdf" = ""
  ∧ (upload_directory fsPdfNoSniff okOracle true []).creates =
      [[[("title", Value.str "report"),
         ("original_extension", Value.str "")]]] := by
  constructor
  · rfl
  · decide

/-- Claim C1 (amended): for every file discovered under the root,
`upload_directory` includes the file in the upload (and thus in some
create-call) if and only if the file's FILENAME final extension,
lowercased, is in the fixed allow-list; the content-sniffed extension only
determines the `original_extension` metadata of the create body; files
failing the filename check are silently excluded, not an error (the
resilient run's result is never a raise). -/
theorem claim_C1_amended (fs : FileSys) (o : Oracle) (kwargs : Dict) :
    ((upload_directory fs o true kwargs).creates).flatten =
      ((fs.files.filter
          (fun f => lowerStr (splitextExt f) ∈ supported_extensions)).map
        (itemBody fs (sharedParams kwargs)))
  ∧ isErr (upload_directory fs o true kwargs).result = false := by
  constructor
  · exact upload_directory_creates_flatten fs o kwargs
  · rw [upload_directory, runBatches_resilient]
    rfl

/-- Claim C2: in any run where batch `k`'s create-call fails,
`handle_errors=false` raises (`Except.error`: the caller receives nothing,
so earlier batches' records are lost to them), while `handle_errors=true`
returns exactly the records of the successful batches (`expRecs` skips
every failed batch) and still attempts the storage PUT of every item of
every successfully created batch (`expPuts`) — a failed per-item PUT skips
only that item, its siblings are still attempted. -/
theorem claim_C2 (fs : FileSys) (o : Oracle) (kwargs : Dict) (k : Nat)
    (hk : k < (batches fs).length)
    (hfail : isErr (o.create k
      (groupBody fs (sharedParams kwargs) ((batches fs).get ⟨k, hk⟩))) =
      true) :
    (upload_directory fs o false kwargs).result = Except.error ()
  ∧ (upload_directory fs o true kwargs).result =
      Except.ok (expRecs fs o.create (sharedParams kwargs) 0 (batches fs))
  ∧ (upload_directory fs o true kwargs).puts =
      expPuts fs o (sharedParams kwargs) 0 (batches fs) := by
  refine ⟨?_, ?_, ?_⟩
  · exact runBatches_failfast fs o (sharedParams kwargs) (batches fs) 0 [] k
      hk (by simpa using hfail)
  · rw [upload_directory, runBatches_resilient]
    show Except.ok ([] ++ _) = _
    rw [List.nil_append]
    rfl
  · rw [upload_directory, runBatches_resilient]
    rfl

/-- Claim C2, witness at a one-file directory whose single batch's create
fails. -/
theorem claim_C2_witness :
    (upload_directory fsOne failCreateOracle false []).result =
      Except.error ()
  ∧ (upload_directory fsOne failCreateOracle true []).result =
      Except.ok
        (expRecs fsOne failCreateOracle.create (sharedParams []) 0
          (batches fsOne))
  ∧ (upload_directory fsOne failCreateOracle true []).puts =
      expPuts fsOne failCreateOracle (sharedParams []) 0 (batches fsOne) :=
  claim_C2 fsOne failCreateOracle [] 0 (by decide) (by decide)

/-- Claim C3: with `N` surviving files, `N > BULK_LIMIT`, the resilient
run issues exactly `ceil(N / BULK_LIMIT)` bulk create-calls (at least
two), every body except possibly the last has exactly `BULK_LIMIT` items
(and none has more), and the bodies' concatenation is exactly the per-file
dicts of the surviving files in discovery order — each body is a list of
real per-file dicts, so no `None` padding from `grouper` reaches any
request body; on an all-success oracle the default fail-fast run is the
same run. -/
theorem claim_C3 (fs : FileSys) (o : Oracle) (kwargs : Dict)
    (hN : BULK_LIMIT < (path_list fs).length) :
    ((upload_directory fs o true kwargs).creates).length =
      ((path_list fs).length + BULK_LIMIT - 1) / BULK_LIMIT
  ∧ 1 < ((upload_directory fs o true kwargs).creates).length
  ∧ (∀ body ∈ ((upload_directory fs o true kwargs).creates).dropLast,
      body.length = BULK_LIMIT)
  ∧ (∀ body ∈ (upload_directory fs o true kwargs).creates,
      body.length ≤ BULK_LIMIT)
  ∧ ((upload_directory fs o true kwargs).creates).flatten =
      (path_list fs).map (itemBody fs (sharedParams kwargs))
  ∧ (OracleOk o →
      upload_directory fs o false kwargs = upload_directory fs o true kwargs) := by
  have hB : BULK_LIMIT ≠ 0 := by decide
  have hcr : (upload_directory fs o true kwargs).creates =
      batchBodies fs (sharedParams kwargs)
        (grouper BULK_LIMIT (path_list fs)) := by
    rw [upload_directory, runBatches_resilient]
  refine ⟨?_, ?_, ?_, ?_, upload_directory_creates_flatten fs o kwargs, ?_⟩
  · rw [hcr, batchBodies, List.length_map, grouper_length BULK_LIMIT hB]
  · rw [hcr, batchBodies, List.length_map, grouper_length BULK_LIMIT hB]
    have h2 : 2 * BULK_LIMIT ≤ (path_list fs).length + BULK_LIMIT - 1 := by
      omega
    have := (Nat.le_div_iff_mul_le (Nat.pos_of_ne_zero hB)).mpr h2
    omega
  · intro body hbody
    rw [hcr, batchBodies, ← List.map_dropLast] at hbody
    obtain ⟨g, hg, hgb⟩ := List.mem_map.mp hbody
    rw [← hgb, List.length_map]
    exact grouper_dropLast BULK_LIMIT hB (path_list fs) g hg
  · intro body hbody
    rw [hcr, batchBodies] at hbody
    obtain ⟨g, hg, hgb⟩ := List.mem_map.mp hbody
    rw [← hgb, List.length_map]
    exact grouper_le BULK_LIMIT hB (path_list fs) g hg
  · intro hok
    rw [upload_directory, upload_directory,
      runBatches_allOk fs o hok (sharedParams kwargs) false]

/-- Claim C3, witness at 101 surviving files: 2 create-calls, first of
exactly `BULK_LIMIT` items. -/
theorem claim_C3_witness :
    ((upload_directory fs101 okOracle true []).creates).length =
      ((path_list fs101).length + BULK_LIMIT - 1) / BULK_LIMIT
  ∧ 1 < ((upload_directory fs101 okOracle true []).creates).length
  ∧ (∀ body ∈ ((upload_directory fs101 okOracle true []).creates).dropLast,
      body.length = BULK_LIMIT)
  ∧ (∀ body ∈ (upload_directory fs101 okOracle true []).creates,
      body.length ≤ BULK_LIMIT)
  ∧ ((upload_directory fs101 okOracle true []).creates).flatten =
      (path_list fs101).map (itemBody fs101 (sharedParams []))
  ∧ upload_directory fs101 okOracle false [] =
      upload_directory fs101 okOracle true [] := by
  have h := claim_C3 fs101 okOracle [] (by decide)
  exact ⟨h.1, h.2.1, h.2.2.1, h.2.2.2.1, h.2.2.2.2.1,
    h.2.2.2.2.2 ⟨fun i d => ⟨_, rfl⟩, fun _ _ => rfl, fun _ => rfl⟩⟩

/-- Claim C5: under `handle_errors=true` the run returns exactly the
accumulated records of every batch whose create succeeded (`expRecs`);
every record of such a batch is in the returned list; and the returned
result does not depend on the PUT or process outcomes at all (any oracle
with the same `create` behaviour yields the same result), so records whose
own storage upload failed, and records of batches whose process-call
failed, are retained, not rolled back. -/
theorem claim_C5 (fs : FileSys) (o : Oracle) (kwargs : Dict) (k : Nat)
    (recs : List Rec) (hk : k < (batches fs).length)
    (hcr : o.create k
      (groupBody fs (sharedParams kwargs) ((batches fs).get ⟨k, hk⟩)) =
      Except.ok recs) :
    (upload_directory fs o true kwargs).result =
      Except.ok (expRecs fs o.create (sharedParams kwargs) 0 (batches fs))
  ∧ (∀ r ∈ recs,
      r ∈ expRecs fs o.create (sharedParams kwargs) 0 (batches fs))
  ∧ (∀ o2 : Oracle, o2.create = o.create →
      (upload_directory fs o2 true kwargs).result =
        (upload_directory fs o true kwargs).result) := by
  refine ⟨?_, ?_, ?_⟩
  · rw [upload_directory, runBatches_resilient]
    show Except.ok ([] ++ _) = _
    rw [List.nil_append]
    rfl
  · exact expRecs_mem fs o.create (sharedParams kwargs) (batches fs) 0 k hk
      recs (by simpa using hcr)
  · intro o2 h2
    rw [upload_directory, upload_directory, runBatches_resilient,
      runBatches_resilient, h2]

/-- Claim C5, witness: the single batch's create succeeds with record
`⟨7, "u"⟩`, its PUT fails and its process-call fails, yet the record is in
the returned list. -/
theorem claim_C5_witness :
    (upload_directory fsOne sadOracle true []).result =
      Except.ok
        (expRecs fsOne sadOracle.create (sharedParams []) 0 (batches fsOne))
  ∧ (⟨7, "u"⟩ : Rec) ∈
      expRecs fsOne sadOracle.create (sharedParams []) 0 (batches fsOne) := by
  have h := claim_C5 fsOne sadOracle [] 0 [⟨7, "u"⟩] (by decide) rfl
  exact ⟨h.1, h.2.1 ⟨7, "u"⟩ (by decide)⟩

theorem runBatches_item_congr (fs fs2 : FileSys) (o : Oracle)
    (handle : Bool) (params : Dict)
    (hitem : itemBody fs params = itemBody fs2 params) :
    ∀ gs i acc, runBatches fs o handle params i gs acc =
      runBatches fs2 o handle params i gs acc := by
  intro gs
  induction gs with
  | nil => intro i acc; rfl
  | cons g gs ih =>
    intro i acc
    simp only [runBatches, hitem, ih]

/-- Claim C8: the single-file upload raises a validation error, with NO
network call issued, exactly when the file size reaches the fixed
`501 * 1024 * 1024` byte cap (≈500 MB); below the cap it proceeds through
create/PUT/process; and the directory pipeline never consults file sizes —
runs over environments differing only in the `size` function are
identical. -/
theorem claim_C8 (so : SingleOracle) (name : String) (size : Nat)
    (kwargs : Dict) (o : Oracle) (handle : Bool) (files : List String)
    (sniff : String → Option String) (σ τ : String → Nat) :
    (501 * 1024 * 1024 ≤ size →
      upload so name size kwargs = ([], Except.error ()))
  ∧ (size < 501 * 1024 * 1024 →
      upload so name size kwargs =
        ([NetOp.createDoc
            (format_upload_parameters name (dictErase kwargs "force_ocr")),
          NetOp.putFile so.presigned_url, NetOp.processDoc so.docId],
         Except.ok ⟨so.docId, so.presigned_url⟩))
  ∧ upload_directory ⟨files, sniff, σ⟩ o handle kwargs =
      upload_directory ⟨files, sniff, τ⟩ o handle kwargs := by
  refine ⟨?_, ?_, ?_⟩
  · intro hbig
    rw [upload, if_pos hbig]
  · intro hsmall
    rw [upload, if_neg (Nat.not_le.mpr hsmall)]
  · exact runBatches_item_congr ⟨files, sniff, σ⟩ ⟨files, sniff, τ⟩ o handle
      (sharedParams kwargs) rfl _ 0 []

/-- Claim C8, witness: a file at exactly the cap raises with no calls; a
10-byte file proceeds; two size functions give identical directory runs. -/
theorem claim_C8_witness :
    upload ⟨"https://s/p", 9⟩ "t.pdf" (501 * 1024 * 1024) [] =
      ([], Except.error ())
  ∧ upload ⟨"https://s/p", 9⟩ "t.pdf" 10 [] =
      ([NetOp.createDoc
          (format_upload_parameters "t.pdf" (dictErase [] "force_ocr")),
        NetOp.putFile "https://s/p", NetOp.processDoc 9],
       Except.ok ⟨9, "https://s/p"⟩)
  ∧ upload_directory ⟨["w/a.pdf"], fun _ => some ".pdf", fun _ => 3⟩
        okOracle true [] =
      upload_directory ⟨["w/a.pdf"], fun _ => some ".pdf", fun _ => 501⟩
        okOracle true [] := by
  have h := claim_C8 ⟨"https://s/p", 9⟩ "t.pdf" (501 * 1024 * 1024) []
    okOracle true ["w/a.pdf"] (fun _ => some ".pdf") (fun _ => 3)
    (fun _ => 501)
  have h10 := claim_C8 ⟨"https://s/p", 9⟩ "t.pdf" 10 [] okOracle true
    ["w/a.pdf"] (fun _ => some ".pdf") (fun _ => 3) (fun _ => 501)
  exact ⟨h.1 (by decide), h10.2.1 (by decide), h.2.2⟩

/-- Claim C10: `upload_directory` silently discards a caller-supplied
`title` keyword — the whole run (in particular every request body) is the
one obtained with the key removed; every per-item create body carries the
title derived from that item's own filename by `_get_title`; and
`_get_title` is "basename with only the final extension segment removed;
a dotless filename is used unchanged". -/
theorem claim_C10 (fs : FileSys) (o : Oracle) (kwargs : Dict)
    (handle : Bool) (d a b : List Char) (hb : ('.' : Char) ∉ b)
    (hsb : ('/' : Char) ∉ b) (ha : ('.' : Char) ∉ a)
    (hsa : ('/' : Char) ∉ a) :
    upload_directory fs o handle kwargs =
      upload_directory fs o handle (dictErase kwargs "title")
  ∧ (∀ params p, dictLookup (itemBody fs params p) "title" =
      some (Value.str (get_title p)))
  ∧ get_title ⟨d ++ '/' :: (a ++ '.' :: b)⟩ = ⟨a⟩
  ∧ get_title ⟨a⟩ = ⟨a⟩ := by
  have hsep : ('/' : Char) ∉ a ++ '.' :: b := by
    intro hc
    rcases List.mem_append.mp hc with h | h
    · exact hsa h
    · rcases List.mem_cons.mp h with h | h
      · exact absurd h (by decide)
      · exact hsb h
  refine ⟨?_, ?_, ?_, ?_⟩
  · rw [upload_directory, upload_directory, sharedParams, sharedParams,
      dictErase_idem]
  · intro params p
    show dictLookup
      (dictSet (dictSet params "title" (Value.str (get_title p)))
        "original_extension"
        (Value.str (lstripDots (get_valid_extension fs p)))) "title" = _
    rw [dictLookup_dictSet_ne _ _ _ _ (by decide), dictLookup_dictSet]
  · show get_title ⟨d ++ '/' :: (a ++ '.' :: b)⟩ = ⟨a⟩
    rw [get_title]
    simp only [basenameChars, splitLastOn_append '/' d _ hsep,
      splitLastOn_append '.' a b hb]
  · rw [get_title]
    simp only [basenameChars, splitLastOn_eq_none '/' a hsa,
      splitLastOn_eq_none '.' a ha]

/-- Claim C10, witness: concrete run with a caller `title`, and
`_get_title` on `dir/report.pdf` and on a dotless name. -/
theorem claim_C10_witness :
    upload_directory fsOne okOracle true [("title", Value.str "X")] =
      upload_directory fsOne okOracle true
        (dictErase [("title", Value.str "X")] "title")
  ∧ (∀ params p, dictLookup (itemBody fsOne params p) "title" =
      some (Value.str (get_title p)))
  ∧ get_title ⟨"dir".data ++ '/' :: ("report".data ++ '.' :: "pdf".data)⟩ =
      ⟨"report".data⟩
  ∧ get_title ⟨"report".data⟩ = ⟨"report".data⟩ := by
  have h := claim_C10 fsOne okOracle [("title", Value.str "X")] true
    "dir".data "report".data "pdf".data (by decide) (by decide) (by decide)
    (by decide)
  exact ⟨h.1, h.2.1, h.2.2.1, h.2.2.2⟩

example : renderTemplate "a{x}/{y}b" [("x", "1"), ("y", "22")] = "a1/22b" := by
  decide

/-- Claim C4: asset attribute resolution follows the stated precedence —
for every document, `full_text_url`, `get_full_text_url`, `full_text` and
`get_full_text` all resolve without error, the URL accessors agree on one
URL `u`, the content accessors both return the UTF-8 decoded body fetched
from that same `u`, and an unrecognized name such as `bogus_field` is a
resolution failure (`AttributeError`, modelled as `none`). -/
theorem claim_C4 (d : Doc) (web : String → String) :
    ∃ u, u = get_full_text_url d
  ∧ resolveAttr web d "full_text_url" = some (AttrValue.url u)
  ∧ resolveAttr web d "get_full_text_url" = some (AttrValue.url u)
  ∧ resolveAttr web d "full_text" =
      some (AttrValue.content (Content.text (web u)))
  ∧ resolveAttr web d "get_full_text" =
      some (AttrValue.content (Content.text (web u)))
  ∧ resolveAttr web d "bogus_field" = none :=
  ⟨get_full_text_url d, rfl, rfl, rfl, rfl, rfl, rfl⟩

/-- Claim C6: for each size in {thumbnail, small, normal, large} the
`{size}_image_url_list` accessor resolves to the image URL list, which has
exactly `page_count` entries, the `k`-th entry (0-based) being the page
`k+1` image URL — pages ascend from 1 to `page_count` inclusive. -/
theorem claim_C6 (d : Doc) (web : String → String) :
    (resolveAttr web d "thumbnail_image_url_list" =
        some (AttrValue.urlList (get_image_url_list d "thumbnail"))
      ∧ resolveAttr web d "small_image_url_list" =
        some (AttrValue.urlList (get_image_url_list d "small"))
      ∧ resolveAttr web d "normal_image_url_list" =
        some (AttrValue.urlList (get_image_url_list d "normal"))
      ∧ resolveAttr web d "large_image_url_list" =
        some (AttrValue.urlList (get_image_url_list d "large")))
  ∧ (∀ size, (get_image_url_list d size).length = d.page_count)
  ∧ (∀ size k (hk : k < (get_image_url_list d size).length),
      (get_image_url_list d size).get ⟨k, hk⟩ =
        get_image_url d (k + 1) size) := by
  refine ⟨⟨rfl, rfl, rfl, rfl⟩, ?_, ?_⟩
  · intro size
    simp [get_image_url_list]
  · intro size k hk
    simp [get_image_url_list, List.get_eq_getElem, List.getElem_map,
      List.getElem_range]

/-- Claim C6, witness at a two-page document: the list accessor resolves,
has 2 entries, and entry 1 is the page-2 URL. -/
theorem claim_C6_witness :
    resolveAttr (fun _ => "") docEx "normal_image_url_list" =
      some (AttrValue.urlList (get_image_url_list docEx "normal"))
  ∧ (get_image_url_list docEx "normal").length = docEx.page_count
  ∧ (get_image_url_list docEx "normal").get ⟨1, by decide⟩ =
      get_image_url docEx 2 "normal" := by
  have h := claim_C6 docEx (fun _ => "")
  exact ⟨h.1.2.2.1, h.2.1 "normal", h.2.2 "normal" 1 (by decide)⟩

/-- Claim C7: each synthesized asset URL equals the spec's fixed path
template for its kind, rendered (by the independent `renderTemplate`)
against the document's identity — full text, page text, json text, pdf,
page image, and page position metadata. -/
theorem claim_C7 (d : Doc) (page : Nat) (size : String) :
    get_full_text_url d =
      renderTemplate "{asset_base}documents/{id}/{slug}.txt"
        [("asset_base", d.asset_url), ("id", toString d.id),
         ("slug", d.slug)]
  ∧ get_page_text_url d page =
      renderTemplate "{asset_base}documents/{id}/pages/{slug}-p{page}.txt"
        [("asset_base", d.asset_url), ("id", toString d.id),
         ("slug", d.slug), ("page", toString page)]
  ∧ get_json_text_url d =
      renderTemplate "{asset_base}documents/{id}/{slug}.txt.json"
        [("asset_base", d.asset_url), ("id", toString d.id),
         ("slug", d.slug)]
  ∧ get_pdf_url d =
      renderTemplate "{asset_base}documents/{id}/{slug}.pdf"
        [("asset_base", d.asset_url), ("id", toString d.id),
         ("slug", d.slug)]
  ∧ get_image_url d page size =
      renderTemplate
        "{asset_base}documents/{id}/pages/{slug}-p{page}-{size}.gif"
        [("asset_base", d.asset_url), ("id", toString d.id),
         ("slug", d.slug), ("page", toString page), ("size", size)]
  ∧ get_page_position_json_url d page =
      renderTemplate
        "{asset_base}documents/{id}/pages/{slug}-p{page}.position.json"
        [("asset_base", d.asset_url), ("id", toString d.id),
         ("slug", d.slug), ("page", toString page)] :=
  ⟨rfl, rfl, rfl, rfl, rfl, rfl⟩

/-- Claim C9: highlights `{"page_no_3": ["<em>x</em> y"]}` derive exactly
`[{page: "3", text: "<em>x</em> y"}]` (the fixed `page_no_` prefix is
stripped); no highlights derive the empty list; and mentions follow the
iteration order of the mapping (the derivation distributes over the
mapping in order). -/
theorem claim_C9 (h1 h2 : String × List String) :
    mentions (some [("page_no_3", ["<em>x</em> y"])]) =
      [⟨"3", "<em>x</em> y"⟩]
  ∧ mentions none = []
  ∧ mentions (some [h1, h2]) =
      mentions (some [h1]) ++ mentions (some [h2]) := by
  refine ⟨by decide, rfl, ?_⟩
  simp [mentions]
